import Mathlib

/-!
Shallow embedding of the intcode virtual machine from `src/intcode/src/lib.rs`.

Rust methods taking `&mut self` and returning `Result<T, VMError>` are embedded
as functions `Vm → Except VMError T × Vm`: the second component is the machine
after the call, which in Rust keeps any mutation performed before an early
`?`-return.  `i64` values are embedded as `Int`; Rust's `/` and `%` (truncated
division) are `Int.tdiv` and `Int.tmod`.  `Vec<i64>` memory is a `List Int`,
and the `&mut i64` place returned by `Vm::access`/`Vm::fetch_param` is embedded
as the concrete index of the cell (which the callers then read with `getD` or
write with `set`).
-/

deriving instance DecidableEq for Except

namespace Intcode

/-- `VMError` from `src/intcode/src/lib.rs`. -/
inductive VMError where
  | InvalidOpcode (opcode : Int) (addr : Int)
  | InvalidAddress (addr : Int)
  | Stopped
  | NoMoreInput
deriving DecidableEq, Repr

/-- `ParameterMode` from `src/intcode/src/lib.rs`. -/
inductive ParameterMode where
  | Immediate
  | Position
  | Relative
deriving DecidableEq, Repr

/-- `Opcode` from `src/intcode/src/lib.rs`. -/
inductive Opcode where
  | Add (m1 m2 m3 : ParameterMode)
  | Mul (m1 m2 m3 : ParameterMode)
  | Input (m1 : ParameterMode)
  | Output (m1 : ParameterMode)
  | JumpIfTrue (m1 m2 : ParameterMode)
  | JumpIfFalse (m1 m2 : ParameterMode)
  | LessThan (m1 m2 m3 : ParameterMode)
  | Equals (m1 m2 m3 : ParameterMode)
  | RelativeBaseOffset (m1 : ParameterMode)
  | End
deriving DecidableEq, Repr

/-- `VmState` from `src/intcode/src/lib.rs`. -/
inductive VmState where
  | Running
  | Stopped
  | WaitingForInput
deriving DecidableEq, Repr

/-- `Vm` from `src/intcode/src/lib.rs`.  The two `VecDeque<i64>` queues are
lists whose head is the queue front: `pop_front` takes the head and
`push_back` appends at the end. -/
structure Vm where
  memory : List Int
  pc : Int
  rb : Int
  state : VmState
  inputs : List Int
  outputs : List Int
deriving DecidableEq, Repr

/-- `Vm::new`. -/
def Vm.new (memory : List Int) : Vm :=
  { memory := memory, pc := 0, rb := 0, state := .Running, inputs := [], outputs := [] }

/-- `self.memory.resize(idx+1, 0)` guarded by `self.memory.len() <= idx`:
zero-extension of the store up to and including index `idx`. -/
def extendMem (m : List Int) (idx : Nat) : List Int :=
  if m.length ≤ idx then m ++ List.replicate (idx + 1 - m.length) 0 else m

/-- `Vm::access`: a negative address fails with `InvalidAddress`; otherwise the
memory is zero-extended so that the index exists, and the index of the cell
(the `&mut i64` place) is returned. -/
def Vm.access (vm : Vm) (addr : Int) : Except VMError Nat × Vm :=
  if addr < 0 then (.error (.InvalidAddress addr), vm)
  else (.ok addr.toNat, { vm with memory := extendMem vm.memory addr.toNat })

/-- `Vm::read_at`. -/
def Vm.read_at (vm : Vm) (addr : Int) : Except VMError Int × Vm :=
  match vm.access addr with
  | (.error e, v) => (.error e, v)
  | (.ok idx, v) => (.ok (v.memory.getD idx 0), v)

/-- `Vm::write_at`. -/
def Vm.write_at (vm : Vm) (addr : Int) (val : Int) : Except VMError Unit × Vm :=
  match vm.access addr with
  | (.error e, v) => (.error e, v)
  | (.ok idx, v) => (.ok (), { v with memory := v.memory.set idx val })

/-- `Vm::decode_mode`: `(opcode / 10^(param+2)) % 10` with Rust's truncated
`/` and `%`, mapped `0 → Position`, `1 → Immediate`, `2 → Relative`,
anything else → `none`. -/
def decode_mode (opcode : Int) (param : Nat) : Option ParameterMode :=
  let d := (opcode.tdiv ((10 : Int) ^ (param + 2))).tmod 10
  if d = 0 then some .Position
  else if d = 1 then some .Immediate
  else if d = 2 then some .Relative
  else none

/-- The decoding part of `Vm::read_opcode`, applied to the fetched word `i`;
`addr` is the address the word was read from (`self.pc - 1` at the point the
errors are built in the Rust code).  Note the last arm: an unknown low-two-digit
opcode reports `i % 100` (the binder `o` in the Rust `match`), while a bad mode
digit reports the whole word `i`. -/
def decodeOp (i : Int) (addr : Int) : Except VMError Opcode :=
  let c := i.tmod 100
  if c = 1 then
    match decode_mode i 0, decode_mode i 1, decode_mode i 2 with
    | some m1, some m2, some m3 => .ok (.Add m1 m2 m3)
    | _, _, _ => .error (.InvalidOpcode i addr)
  else if c = 2 then
    match decode_mode i 0, decode_mode i 1, decode_mode i 2 with
    | some m1, some m2, some m3 => .ok (.Mul m1 m2 m3)
    | _, _, _ => .error (.InvalidOpcode i addr)
  else if c = 3 then
    match decode_mode i 0 with
    | some m1 => .ok (.Input m1)
    | none => .error (.InvalidOpcode i addr)
  else if c = 4 then
    match decode_mode i 0 with
    | some m1 => .ok (.Output m1)
    | none => .error (.InvalidOpcode i addr)
  else if c = 5 then
    match decode_mode i 0, decode_mode i 1 with
    | some m1, some m2 => .ok (.JumpIfTrue m1 m2)
    | _, _ => .error (.InvalidOpcode i addr)
  else if c = 6 then
    match decode_mode i 0, decode_mode i 1 with
    | some m1, some m2 => .ok (.JumpIfFalse m1 m2)
    | _, _ => .error (.InvalidOpcode i addr)
  else if c = 7 then
    match decode_mode i 0, decode_mode i 1, decode_mode i 2 with
    | some m1, some m2, some m3 => .ok (.LessThan m1 m2 m3)
    | _, _, _ => .error (.InvalidOpcode i addr)
  else if c = 8 then
    match decode_mode i 0, decode_mode i 1, decode_mode i 2 with
    | some m1, some m2, some m3 => .ok (.Equals m1 m2 m3)
    | _, _, _ => .error (.InvalidOpcode i addr)
  else if c = 9 then
    match decode_mode i 0 with
    | some m1 => .ok (.RelativeBaseOffset m1)
    | none => .error (.InvalidOpcode i addr)
  else if c = 99 then .ok .End
  else .error (.InvalidOpcode c addr)

/-- `Vm::read_opcode`: reads the word at `pc` (extending memory if needed),
advances `pc` by one, then decodes.  A decode failure happens after the `pc`
increment, so the advanced `pc` is kept, exactly as in the Rust `&mut self`
method. -/
def Vm.read_opcode (vm : Vm) : Except VMError Opcode × Vm :=
  match vm.access vm.pc with
  | (.error e, v) => (.error e, v)
  | (.ok idx, v) =>
    let i := v.memory.getD idx 0
    let v' := { v with pc := v.pc + 1 }
    (decodeOp i (v'.pc - 1), v')

/-- `Vm::fetch_param`: advances `pc` past the parameter word and resolves the
parameter to the index of a memory cell according to the mode. -/
def Vm.fetch_param (vm : Vm) (mode : ParameterMode) : Except VMError Nat × Vm :=
  let pc := vm.pc
  let v0 := { vm with pc := vm.pc + 1 }
  match mode with
  | .Immediate => v0.access pc
  | .Position =>
    match v0.access pc with
    | (.error e, v) => (.error e, v)
    | (.ok idx, v) => v.access (v.memory.getD idx 0)
  | .Relative =>
    match v0.access pc with
    | (.error e, v) => (.error e, v)
    | (.ok idx, v) => v.access (v.memory.getD idx 0 + v.rb)

/-- The instruction-execution `match op` of `Vm::step`. -/
def Vm.execOp (vm : Vm) (op : Opcode) : Except VMError Unit × Vm :=
  match op with
  | .Add m1 m2 m3 =>
    match vm.fetch_param m1 with
    | (.error e, v) => (.error e, v)
    | (.ok a1, v) =>
      let arg1 := v.memory.getD a1 0
      match v.fetch_param m2 with
      | (.error e, v) => (.error e, v)
      | (.ok a2, v) =>
        let arg2 := v.memory.getD a2 0
        match v.fetch_param m3 with
        | (.error e, v) => (.error e, v)
        | (.ok a3, v) => (.ok (), { v with memory := v.memory.set a3 (arg1 + arg2) })
  | .Mul m1 m2 m3 =>
    match vm.fetch_param m1 with
    | (.error e, v) => (.error e, v)
    | (.ok a1, v) =>
      let arg1 := v.memory.getD a1 0
      match v.fetch_param m2 with
      | (.error e, v) => (.error e, v)
      | (.ok a2, v) =>
        let arg2 := v.memory.getD a2 0
        match v.fetch_param m3 with
        | (.error e, v) => (.error e, v)
        | (.ok a3, v) => (.ok (), { v with memory := v.memory.set a3 (arg1 * arg2) })
  | .Input m1 =>
    match vm.inputs with
    | i :: rest =>
      let v0 := { vm with inputs := rest }
      match v0.fetch_param m1 with
      | (.error e, v) => (.error e, v)
      | (.ok a1, v) => (.ok (), { v with memory := v.memory.set a1 i })
    | [] => (.ok (), { vm with pc := vm.pc - 1, state := .WaitingForInput })
  | .Output m1 =>
    match vm.fetch_param m1 with
    | (.error e, v) => (.error e, v)
    | (.ok a1, v) => (.ok (), { v with outputs := v.outputs ++ [v.memory.getD a1 0] })
  | .JumpIfTrue m1 m2 =>
    match vm.fetch_param m1 with
    | (.error e, v) => (.error e, v)
    | (.ok a1, v) =>
      let arg1 := v.memory.getD a1 0
      match v.fetch_param m2 with
      | (.error e, v) => (.error e, v)
      | (.ok a2, v) =>
        if arg1 ≠ 0 then (.ok (), { v with pc := v.memory.getD a2 0 }) else (.ok (), v)
  | .JumpIfFalse m1 m2 =>
    match vm.fetch_param m1 with
    | (.error e, v) => (.error e, v)
    | (.ok a1, v) =>
      let arg1 := v.memory.getD a1 0
      match v.fetch_param m2 with
      | (.error e, v) => (.error e, v)
      | (.ok a2, v) =>
        if arg1 = 0 then (.ok (), { v with pc := v.memory.getD a2 0 }) else (.ok (), v)
  | .LessThan m1 m2 m3 =>
    match vm.fetch_param m1 with
    | (.error e, v) => (.error e, v)
    | (.ok a1, v) =>
      let arg1 := v.memory.getD a1 0
      match v.fetch_param m2 with
      | (.error e, v) => (.error e, v)
      | (.ok a2, v) =>
        let arg2 := v.memory.getD a2 0
        match v.fetch_param m3 with
        | (.error e, v) => (.error e, v)
        | (.ok a3, v) =>
          (.ok (), { v with memory := v.memory.set a3 (if arg1 < arg2 then 1 else 0) })
  | .Equals m1 m2 m3 =>
    match vm.fetch_param m1 with
    | (.error e, v) => (.error e, v)
    | (.ok a1, v) =>
      let arg1 := v.memory.getD a1 0
      match v.fetch_param m2 with
      | (.error e, v) => (.error e, v)
      | (.ok a2, v) =>
        let arg2 := v.memory.getD a2 0
        match v.fetch_param m3 with
        | (.error e, v) => (.error e, v)
        | (.ok a3, v) =>
          (.ok (), { v with memory := v.memory.set a3 (if arg1 = arg2 then 1 else 0) })
  | .RelativeBaseOffset m1 =>
    match vm.fetch_param m1 with
    | (.error e, v) => (.error e, v)
    | (.ok a1, v) => (.ok (), { v with rb := v.rb + v.memory.getD a1 0 })
  | .End => (.ok (), { vm with state := .Stopped })

/-- The body of `Vm::step` after the initial `match self.state`: decode and
execute one instruction, then return `Ok(self.state)`. -/
def Vm.stepExec (vm : Vm) : Except VMError VmState × Vm :=
  match vm.read_opcode with
  | (.error e, v) => (.error e, v)
  | (.ok op, v) =>
    match v.execOp op with
    | (.error e, v') => (.error e, v')
    | (.ok _, v') => (.ok v'.state, v')

/-- `Vm::step`. -/
def Vm.step (vm : Vm) : Except VMError VmState × Vm :=
  match vm.state with
  | .Stopped => (.error .Stopped, vm)
  | .WaitingForInput =>
    if vm.inputs.isEmpty then (.ok .WaitingForInput, vm)
    else Vm.stepExec { vm with state := .Running }
  | .Running => Vm.stepExec vm

/-- `Vm::run`, with explicit fuel for the `loop`; exhausted fuel returns the
machine unchanged (the Rust loop has no such case, it only ever exits through
the three `match` arms below). -/
def Vm.run (vm : Vm) : Nat → Except VMError Unit × Vm
  | 0 => (.ok (), vm)
  | n + 1 =>
    match vm.step with
    | (.error e, v) => (.error e, v)
    | (.ok .Running, v) => v.run n
    | (.ok .Stopped, v) => (.ok (), v)
    | (.ok .WaitingForInput, v) => (.error .NoMoreInput, v)

/-- `Vm::add_inputs`: `push_back` of each value in order. -/
def Vm.add_inputs (vm : Vm) (xs : List Int) : Vm :=
  { vm with inputs := vm.inputs ++ xs }

/-- The effective address a parameter occupying the cell `addr` resolves to,
given the memory and relative base: the address itself for Immediate mode, the
literal word for Position mode, literal plus relative base for Relative mode. -/
def resolveAt (mem : List Int) (rb : Int) (addr : Int) (m : ParameterMode) : Int :=
  match m with
  | .Immediate => addr
  | .Position => mem.getD addr.toNat 0
  | .Relative => mem.getD addr.toNat 0 + rb

/-! ### Basic lemmas about memory extension and `access` -/

theorem extendMem_of_lt {m : List Int} {i : Nat} (h : i < m.length) : extendMem m i = m := by
  unfold extendMem
  rw [if_neg (by omega)]

theorem length_extendMem (m : List Int) (i : Nat) :
    (extendMem m i).length = max m.length (i + 1) := by
  unfold extendMem
  split <;> simp <;> omega

theorem length_le_extendMem (m : List Int) (i : Nat) : m.length ≤ (extendMem m i).length := by
  rw [length_extendMem]; omega

theorem getD_replicate_zero (n k : Nat) : (List.replicate n (0 : Int)).getD k 0 = 0 := by
  simp [List.getD, List.getElem?_replicate]
  split <;> rfl

theorem extendMem_getD_lt {m : List Int} {j : Nat} (i : Nat) (h : j < m.length) :
    (extendMem m i).getD j 0 = m.getD j 0 := by
  unfold extendMem
  split
  · exact List.getD_append _ _ _ _ h
  · rfl

theorem extendMem_getD (m : List Int) (i j : Nat) :
    (extendMem m i).getD j 0 = m.getD j 0 := by
  rcases Nat.lt_or_ge j m.length with h | h
  · exact extendMem_getD_lt i h
  · unfold extendMem
    split
    · rw [List.getD_append_right _ _ _ _ h, List.getD_eq_default _ _ h, getD_replicate_zero]
    · rfl

theorem access_neg {vm : Vm} {addr : Int} (h : addr < 0) :
    vm.access addr = (.error (.InvalidAddress addr), vm) := by
  unfold Vm.access
  rw [if_pos h]

theorem access_nonneg {vm : Vm} {addr : Int} (h : 0 ≤ addr) :
    vm.access addr = (.ok addr.toNat, { vm with memory := extendMem vm.memory addr.toNat }) := by
  unfold Vm.access
  rw [if_neg (by omega)]

theorem access_inrange {vm : Vm} {addr : Int} (h : 0 ≤ addr)
    (h2 : addr.toNat < vm.memory.length) :
    vm.access addr = (.ok addr.toNat, vm) := by
  rw [access_nonneg h, extendMem_of_lt h2]

theorem access_ok {vm v : Vm} {addr : Int} {i : Nat} (h : vm.access addr = (.ok i, v)) :
    0 ≤ addr ∧ i = addr.toNat ∧ v = { vm with memory := extendMem vm.memory addr.toNat } := by
  unfold Vm.access at h
  split at h
  · exact absurd h (by simp)
  · rename_i hneg
    have h1 : (0 : Int) ≤ addr := by omega
    have h2 := congrArg Prod.fst h
    have h3 := congrArg Prod.snd h
    simp at h2 h3
    exact ⟨h1, h2.symm, h3.symm⟩

/-- `access` touches only the memory (by zero-extension), never the control
registers, run state or queues, and never shrinks the memory. -/
theorem access_effect (vm : Vm) (addr : Int) :
    (vm.access addr).2.pc = vm.pc ∧ (vm.access addr).2.rb = vm.rb ∧
    (vm.access addr).2.state = vm.state ∧ (vm.access addr).2.inputs = vm.inputs ∧
    (vm.access addr).2.outputs = vm.outputs ∧
    vm.memory.length ≤ (vm.access addr).2.memory.length ∧
    (∀ j, j < vm.memory.length →
      (vm.access addr).2.memory.getD j 0 = vm.memory.getD j 0) := by
  unfold Vm.access
  split
  · simp
  · refine ⟨rfl, rfl, rfl, rfl, rfl, length_le_extendMem _ _, ?_⟩
    intro j hj
    exact extendMem_getD_lt _ hj

/-! ### Characterizations of `read_opcode` and `fetch_param` -/

/-- When the program counter points inside current memory, `read_opcode`
decodes the word there and advances the counter by one, touching nothing
else. -/
theorem read_opcode_inrange {vm : Vm} (h : 0 ≤ vm.pc) (h2 : vm.pc.toNat < vm.memory.length) :
    vm.read_opcode = (decodeOp (vm.memory.getD vm.pc.toNat 0) vm.pc, { vm with pc := vm.pc + 1 }) := by
  unfold Vm.read_opcode
  rw [access_inrange h h2]
  simp

/-- When the parameter word and its resolved effective address are both inside
current memory, `fetch_param` returns exactly the resolved address and advances
the program counter by one, leaving everything else unchanged. -/
theorem fetch_param_inrange {vm : Vm} (m : ParameterMode) (h : 0 ≤ vm.pc)
    (h2 : vm.pc.toNat < vm.memory.length)
    (h3 : 0 ≤ resolveAt vm.memory vm.rb vm.pc m)
    (h4 : (resolveAt vm.memory vm.rb vm.pc m).toNat < vm.memory.length) :
    vm.fetch_param m =
      (.ok (resolveAt vm.memory vm.rb vm.pc m).toNat, { vm with pc := vm.pc + 1 }) := by
  cases m with
  | Immediate =>
    unfold Vm.fetch_param
    exact access_inrange h h2
  | Position =>
    unfold Vm.fetch_param
    dsimp only
    rw [@access_inrange { vm with pc := vm.pc + 1 } vm.pc h h2]
    exact @access_inrange { vm with pc := vm.pc + 1 } _ h3 h4
  | Relative =>
    unfold Vm.fetch_param
    dsimp only
    rw [@access_inrange { vm with pc := vm.pc + 1 } vm.pc h h2]
    exact @access_inrange { vm with pc := vm.pc + 1 } _ h3 h4

/-- A successful `fetch_param` always advances the program counter by exactly
one, leaves the relative base, run state and both queues unchanged, and can
only grow the memory. -/
theorem fetch_param_ok {vm v : Vm} {m : ParameterMode} {a : Nat}
    (h : vm.fetch_param m = (.ok a, v)) :
    v.pc = vm.pc + 1 ∧ v.rb = vm.rb ∧ v.state = vm.state ∧ v.inputs = vm.inputs ∧
    v.outputs = vm.outputs ∧ vm.memory.length ≤ v.memory.length := by
  cases m with
  | Immediate =>
    unfold Vm.fetch_param at h
    obtain ⟨-, -, hv⟩ := access_ok h
    subst hv
    exact ⟨rfl, rfl, rfl, rfl, rfl, length_le_extendMem _ _⟩
  | Position =>
    unfold Vm.fetch_param at h
    dsimp only at h
    rcases hacc : Vm.access { vm with pc := vm.pc + 1 } vm.pc with ⟨r, w⟩
    rw [hacc] at h
    cases r with
    | error e => exact absurd h (by simp)
    | ok idx =>
      obtain ⟨-, -, hw⟩ := access_ok hacc
      obtain ⟨-, -, hv⟩ := access_ok h
      subst hw hv
      exact ⟨rfl, rfl, rfl, rfl, rfl,
        le_trans (length_le_extendMem _ _) (length_le_extendMem _ _)⟩
  | Relative =>
    unfold Vm.fetch_param at h
    dsimp only at h
    rcases hacc : Vm.access { vm with pc := vm.pc + 1 } vm.pc with ⟨r, w⟩
    rw [hacc] at h
    cases r with
    | error e => exact absurd h (by simp)
    | ok idx =>
      obtain ⟨-, -, hw⟩ := access_ok hacc
      obtain ⟨-, -, hv⟩ := access_ok h
      subst hw hv
      exact ⟨rfl, rfl, rfl, rfl, rfl,
        le_trans (length_le_extendMem _ _) (length_le_extendMem _ _)⟩

/-! ### Claim theorems -/

/-- C4: a memory read fails with an address error iff the address is negative;
for a nonnegative address the store is zero-extended up to and including the
address, the read returns the (old or default-zero) cell value, and when the
address was beyond the current length the returned value is `0`. -/
theorem c4_read_behavior (vm : Vm) (addr : Int) :
    (addr < 0 → vm.read_at addr = (.error (.InvalidAddress addr), vm)) ∧
    (0 ≤ addr →
      vm.read_at addr =
        (.ok (vm.memory.getD addr.toNat 0),
         { vm with memory := extendMem vm.memory addr.toNat }) ∧
      (vm.memory.length ≤ addr.toNat → vm.memory.getD addr.toNat 0 = 0)) := by
  constructor
  · intro h
    unfold Vm.read_at
    rw [access_neg h]
  · intro h
    constructor
    · unfold Vm.read_at
      rw [access_nonneg h]
      dsimp only
      rw [extendMem_getD]
    · intro hlen
      exact List.getD_eq_default _ _ hlen

/-- Witness for C4 at a concrete machine: reading address `-1` of a one-cell
machine fails, reading address `3` zero-extends and returns `0`. -/
theorem c4_witness :
    Vm.read_at (Vm.new [5]) (-1) = (.error (.InvalidAddress (-1)), Vm.new [5]) ∧
    Vm.read_at (Vm.new [5]) 3 =
      (.ok ((Vm.new [5]).memory.getD (3 : Int).toNat 0),
       { Vm.new [5] with memory := extendMem (Vm.new [5]).memory (3 : Int).toNat }) ∧
    (Vm.new [5]).memory.getD (3 : Int).toNat 0 = 0 :=
  ⟨(c4_read_behavior (Vm.new [5]) (-1)).1 (by decide),
   ((c4_read_behavior (Vm.new [5]) 3).2 (by decide)).1,
   ((c4_read_behavior (Vm.new [5]) 3).2 (by decide)).2 (by decide)⟩

/-- C5: a Relative-mode parameter resolves to `literal + RelativeBase`
(Immediate resolves to the parameter word's own address, so to the literal
itself; Position to memory at the literal address); a negative
`literal + RelativeBase` fails with an invalid-address error at access time
instead of clamping or wrapping. -/
theorem c5_param_resolution (vm : Vm) (hpc : 0 ≤ vm.pc)
    (hlen : vm.pc.toNat < vm.memory.length) :
    (0 ≤ vm.memory.getD vm.pc.toNat 0 + vm.rb →
      vm.fetch_param .Relative =
        (.ok (vm.memory.getD vm.pc.toNat 0 + vm.rb).toNat,
         { vm with
           pc := vm.pc + 1
           memory := extendMem vm.memory (vm.memory.getD vm.pc.toNat 0 + vm.rb).toNat })) ∧
    (vm.memory.getD vm.pc.toNat 0 + vm.rb < 0 →
      vm.fetch_param .Relative =
        (.error (.InvalidAddress (vm.memory.getD vm.pc.toNat 0 + vm.rb)),
         { vm with pc := vm.pc + 1 })) ∧
    vm.fetch_param .Immediate = (.ok vm.pc.toNat, { vm with pc := vm.pc + 1 }) ∧
    (0 ≤ vm.memory.getD vm.pc.toNat 0 →
      vm.fetch_param .Position =
        (.ok (vm.memory.getD vm.pc.toNat 0).toNat,
         { vm with
           pc := vm.pc + 1
           memory := extendMem vm.memory (vm.memory.getD vm.pc.toNat 0).toNat })) := by
  refine ⟨?_, ?_, ?_, ?_⟩
  · intro h
    unfold Vm.fetch_param
    dsimp only
    rw [@access_inrange { vm with pc := vm.pc + 1 } vm.pc hpc hlen]
    exact @access_nonneg { vm with pc := vm.pc + 1 } _ h
  · intro h
    unfold Vm.fetch_param
    dsimp only
    rw [@access_inrange { vm with pc := vm.pc + 1 } vm.pc hpc hlen]
    exact @access_neg { vm with pc := vm.pc + 1 } _ h
  · unfold Vm.fetch_param
    exact @access_inrange { vm with pc := vm.pc + 1 } vm.pc hpc hlen
  · intro h
    unfold Vm.fetch_param
    dsimp only
    rw [@access_inrange { vm with pc := vm.pc + 1 } vm.pc hpc hlen]
    exact @access_nonneg { vm with pc := vm.pc + 1 } _ h

/-- Witness for C5 at a concrete machine: with memory `[5]` and relative base
`-7`, the relative parameter resolves to `5 + (-7) = -2` and fails with an
invalid-address error; with relative base `1` it resolves to address `6`. -/
theorem c5_witness :
    Vm.fetch_param { Vm.new [5] with rb := -7 } .Relative =
      (.error (.InvalidAddress ((5 : Int) + (-7))), { Vm.new [5] with rb := -7, pc := 1 }) ∧
    Vm.fetch_param { Vm.new [5] with rb := 1 } .Relative =
      (.ok ((5 : Int) + 1).toNat,
       { Vm.new [5] with
         rb := 1
         pc := 1
         memory := extendMem [5] ((5 : Int) + 1).toNat }) :=
  ⟨(c5_param_resolution { Vm.new [5] with rb := -7 } (by decide) (by decide)).2.1 (by decide),
   (c5_param_resolution { Vm.new [5] with rb := 1 } (by decide) (by decide)).1 (by decide)⟩

/-- C6: `Stopped` is terminal — `step` on a stopped machine fails with the
stopped error and changes nothing, and so does `run` (for any positive amount
of fuel). -/
theorem c6_stopped_terminal (vm : Vm) (n : Nat) (h : vm.state = .Stopped) :
    vm.step = (.error .Stopped, vm) ∧ vm.run (n + 1) = (.error .Stopped, vm) := by
  have hs : vm.step = (.error .Stopped, vm) := by
    unfold Vm.step
    rw [h]
  refine ⟨hs, ?_⟩
  unfold Vm.run
  rw [hs]

/-- Witness for C6 on a concrete stopped machine. -/
theorem c6_witness :
    Vm.step { Vm.new [99] with state := .Stopped } =
      (.error .Stopped, { Vm.new [99] with state := .Stopped }) ∧
    Vm.run { Vm.new [99] with state := .Stopped } 1 =
      (.error .Stopped, { Vm.new [99] with state := .Stopped }) :=
  c6_stopped_terminal { Vm.new [99] with state := .Stopped } 0 (by decide)

/-- C10: stepping a machine that is waiting for input while the input queue is
empty succeeds with `WaitingForInput` and changes nothing at all, so repeated
calls without supplying input are harmless no-ops. -/
theorem c10_waiting_noop (vm : Vm) (h1 : vm.state = .WaitingForInput)
    (h2 : vm.inputs = []) :
    vm.step = (.ok .WaitingForInput, vm) := by
  unfold Vm.step
  rw [h1]
  dsimp only
  rw [h2]
  simp

/-- Witness for C10 on a concrete waiting machine. -/
theorem c10_witness :
    Vm.step { Vm.new [3, 0, 99] with state := .WaitingForInput } =
      (.ok .WaitingForInput, { Vm.new [3, 0, 99] with state := .WaitingForInput }) :=
  c10_waiting_noop { Vm.new [3, 0, 99] with state := .WaitingForInput } (by decide) (by decide)


/-! ### One step of an Add instruction, with all addresses in range -/

/-- Executing one `step` on an `Add` instruction whose three parameter words
and resolved effective addresses all lie inside current memory: the sum of the
two operand cells is stored at the destination address, the program counter
advances by exactly 4, and the machine stays `Running`. -/
theorem step_add (vm : Vm) (m1 m2 m3 : ParameterMode)
    (hrun : vm.state = .Running)
    (hpc : 0 ≤ vm.pc)
    (hdec : decodeOp (vm.memory.getD vm.pc.toNat 0) vm.pc = .ok (.Add m1 m2 m3))
    (hip : (vm.pc + 3).toNat < vm.memory.length)
    (h1 : 0 ≤ resolveAt vm.memory vm.rb (vm.pc + 1) m1)
    (h1l : (resolveAt vm.memory vm.rb (vm.pc + 1) m1).toNat < vm.memory.length)
    (h2 : 0 ≤ resolveAt vm.memory vm.rb (vm.pc + 2) m2)
    (h2l : (resolveAt vm.memory vm.rb (vm.pc + 2) m2).toNat < vm.memory.length)
    (h3 : 0 ≤ resolveAt vm.memory vm.rb (vm.pc + 3) m3)
    (h3l : (resolveAt vm.memory vm.rb (vm.pc + 3) m3).toNat < vm.memory.length) :
    vm.step = (.ok .Running,
      { vm with
        pc := vm.pc + 4
        memory := vm.memory.set (resolveAt vm.memory vm.rb (vm.pc + 3) m3).toNat
          (vm.memory.getD (resolveAt vm.memory vm.rb (vm.pc + 1) m1).toNat 0 +
           vm.memory.getD (resolveAt vm.memory vm.rb (vm.pc + 2) m2).toNat 0) }) := by
  have hlen : vm.pc.toNat < vm.memory.length := by omega
  unfold Vm.step
  rw [hrun]
  dsimp only
  unfold Vm.stepExec
  rw [read_opcode_inrange hpc hlen, hdec]
  dsimp only
  unfold Vm.execOp
  dsimp only
  rw [@fetch_param_inrange { vm with pc := vm.pc + 1 } m1 (by dsimp only; omega)
    (by dsimp only; omega) h1 h1l]
  dsimp only
  rw [show vm.pc + 1 + 1 = vm.pc + 2 from by ring]
  rw [@fetch_param_inrange { vm with pc := vm.pc + 2 } m2 (by dsimp only; omega)
    (by dsimp only; omega) h2 h2l]
  dsimp only
  rw [show vm.pc + 2 + 1 = vm.pc + 3 from by ring]
  rw [@fetch_param_inrange { vm with pc := vm.pc + 3 } m3 (by dsimp only; omega)
    (by dsimp only; omega) h3 h3l]
  dsimp only
  rw [show vm.pc + 3 + 1 = vm.pc + 4 from by ring]
  rw [hrun]


/-- C2: one `step` on opcode 1 (Add) with all three modes Position or
Immediate and all parameter words and resolved addresses `p1`, `p2`, `p3`
inside current memory sets `memory[p3] = memory[p1] + memory[p2]`, advances
the program counter by exactly 4, and leaves the machine `Running`. -/
theorem c2_add_step (vm : Vm) (m1 m2 m3 : ParameterMode)
    (hm1 : m1 = .Position ∨ m1 = .Immediate)
    (hm2 : m2 = .Position ∨ m2 = .Immediate)
    (hm3 : m3 = .Position ∨ m3 = .Immediate)
    (hrun : vm.state = .Running)
    (hpc : 0 ≤ vm.pc)
    (hdec : decodeOp (vm.memory.getD vm.pc.toNat 0) vm.pc = .ok (.Add m1 m2 m3))
    (hip : (vm.pc + 3).toNat < vm.memory.length)
    (h1 : 0 ≤ resolveAt vm.memory vm.rb (vm.pc + 1) m1)
    (h1l : (resolveAt vm.memory vm.rb (vm.pc + 1) m1).toNat < vm.memory.length)
    (h2 : 0 ≤ resolveAt vm.memory vm.rb (vm.pc + 2) m2)
    (h2l : (resolveAt vm.memory vm.rb (vm.pc + 2) m2).toNat < vm.memory.length)
    (h3 : 0 ≤ resolveAt vm.memory vm.rb (vm.pc + 3) m3)
    (h3l : (resolveAt vm.memory vm.rb (vm.pc + 3) m3).toNat < vm.memory.length) :
    vm.step = (.ok .Running,
      { vm with
        pc := vm.pc + 4
        memory := vm.memory.set (resolveAt vm.memory vm.rb (vm.pc + 3) m3).toNat
          (vm.memory.getD (resolveAt vm.memory vm.rb (vm.pc + 1) m1).toNat 0 +
           vm.memory.getD (resolveAt vm.memory vm.rb (vm.pc + 2) m2).toNat 0) }) :=
  step_add vm m1 m2 m3 hrun hpc hdec hip h1 h1l h2 h2l h3 h3l

/-- Witness for C2 on the spec's own example program `[1101, 100, -1, 4, 0]`:
`100 + (-1) = 99` is written at address 4 and the counter lands at 4. -/
theorem c2_witness :
    Vm.step (Vm.new [1101, 100, -1, 4, 0]) =
      (.ok .Running, { Vm.new [1101, 100, -1, 4, 0] with pc := 4, memory := [1101, 100, -1, 4, 99] }) := by
  have h := c2_add_step (Vm.new [1101, 100, -1, 4, 0]) .Immediate .Immediate .Position
    (Or.inr rfl) (Or.inr rfl) (Or.inl rfl) rfl (by decide) (by decide) (by decide)
    (by decide) (by decide) (by decide) (by decide) (by decide) (by decide)
  rw [h]
  decide

/-- Counterexample to C7: `[10001, 0, 0, 0]` decodes to Add with an
Immediate-mode destination, and `step` succeeds (`Ok(Running)`) writing
`20002` into the instruction's own parameter word at address 3 — it does not
fail fast. -/
theorem c7_counterexample :
    decodeOp 10001 0 = .ok (.Add .Position .Position .Immediate) ∧
    Vm.step (Vm.new [10001, 0, 0, 0]) =
      (.ok .Running, Vm.mk [10001, 0, 0, 20002] 4 0 .Running [] []) := by
  constructor
  · decide
  · decide

/-- C7 amended: an Add instruction whose destination mode is Immediate does
not fail — `fetch_param` resolves the write parameter to the parameter word's
own address `pc + 3`, so the instruction succeeds and stores the sum into the
instruction's own third parameter cell. -/
theorem c7_amended_immediate_write (vm : Vm) (m1 m2 : ParameterMode)
    (hrun : vm.state = .Running)
    (hpc : 0 ≤ vm.pc)
    (hdec : decodeOp (vm.memory.getD vm.pc.toNat 0) vm.pc = .ok (.Add m1 m2 .Immediate))
    (hip : (vm.pc + 3).toNat < vm.memory.length)
    (h1 : 0 ≤ resolveAt vm.memory vm.rb (vm.pc + 1) m1)
    (h1l : (resolveAt vm.memory vm.rb (vm.pc + 1) m1).toNat < vm.memory.length)
    (h2 : 0 ≤ resolveAt vm.memory vm.rb (vm.pc + 2) m2)
    (h2l : (resolveAt vm.memory vm.rb (vm.pc + 2) m2).toNat < vm.memory.length) :
    vm.step = (.ok .Running,
      { vm with
        pc := vm.pc + 4
        memory := vm.memory.set (vm.pc + 3).toNat
          (vm.memory.getD (resolveAt vm.memory vm.rb (vm.pc + 1) m1).toNat 0 +
           vm.memory.getD (resolveAt vm.memory vm.rb (vm.pc + 2) m2).toNat 0) }) :=
  step_add vm m1 m2 .Immediate hrun hpc hdec hip h1 h1l h2 h2l
    (show (0 : Int) ≤ vm.pc + 3 by omega) hip

/-- Witness for the amended C7 on the counterexample program. -/
theorem c7_witness :
    Vm.step (Vm.new [10001, 0, 0, 0]) =
      (.ok .Running, { Vm.new [10001, 0, 0, 0] with pc := 4, memory := [10001, 0, 0, 20002] }) := by
  have h := c7_amended_immediate_write (Vm.new [10001, 0, 0, 0]) .Position .Position
    rfl (by decide) (by decide) (by decide) (by decide) (by decide) (by decide) (by decide)
  rw [h]
  decide


/-- Every error produced by the decoder is an invalid-opcode error at the
given address, carrying either the whole word (bad mode digit) or the word
taken modulo 100 (unknown opcode). -/
theorem decodeOp_error {i addr : Int} {e : VMError} (h : decodeOp i addr = .error e) :
    e = .InvalidOpcode i addr ∨ e = .InvalidOpcode (i.tmod 100) addr := by
  unfold decodeOp at h
  dsimp only at h
  repeat' split at h
  all_goals simp_all

/-- C3 amended: when the word at the program counter fails to decode (unknown
opcode or bad mode digit), `step` fails with exactly the decoder's
invalid-opcode error — which carries the address of the word, and carries the
whole offending word for a bad mode digit but only the word modulo 100 for an
unknown opcode — and the failed step leaves memory, relative base, queues and
run state unchanged but leaves the program counter advanced one past the
offending word. -/
theorem c3_decode_failure (vm : Vm) (e : VMError)
    (hrun : vm.state = .Running)
    (hpc : 0 ≤ vm.pc)
    (hlen : vm.pc.toNat < vm.memory.length)
    (hbad : decodeOp (vm.memory.getD vm.pc.toNat 0) vm.pc = .error e) :
    vm.step = (.error e, { vm with pc := vm.pc + 1 }) ∧
    (e = .InvalidOpcode (vm.memory.getD vm.pc.toNat 0) vm.pc ∨
     e = .InvalidOpcode ((vm.memory.getD vm.pc.toNat 0).tmod 100) vm.pc) := by
  refine ⟨?_, decodeOp_error hbad⟩
  unfold Vm.step
  rw [hrun]
  dsimp only
  unfold Vm.stepExec
  rw [read_opcode_inrange hpc hlen, hbad]
  dsimp only
  rw [hrun]

/-- Counterexample to C3: on program `[153]` (unknown opcode 53 inside word
153) the error carries `53 = 153 % 100`, not the offending word `153` itself,
and the failed step leaves the program counter advanced to 1, not unchanged. -/
theorem c3_counterexample :
    Vm.step (Vm.new [153]) = (.error (.InvalidOpcode 53 0), { Vm.new [153] with pc := 1 }) ∧
    (53 : Int) ≠ 153 ∧
    (Vm.step (Vm.new [153])).2.pc ≠ (Vm.new [153]).pc := by
  refine ⟨by decide, by decide, by decide⟩

/-- Witness for the amended C3 on program `[44]`. -/
theorem c3_witness :
    Vm.step (Vm.new [44]) = (.error (.InvalidOpcode 44 0), { Vm.new [44] with pc := 1 }) := by
  have h := c3_decode_failure (Vm.new [44]) (.InvalidOpcode 44 0) rfl (by decide) (by decide)
    (by decide)
  rw [h.1]
  decide

/-- C1: a `Running` machine whose next instruction is opcode 3 (Input) with an
empty input queue suspends: `step` returns `Ok(WaitingForInput)` with the
program counter rewound to the opcode word.  After the caller appends inputs
`x :: xs` and calls `step` again (given that the destination parameter
resolves successfully), the machine returns to `Running`, consumes exactly the
one value `x`, writes it to the resolved destination, and the program counter
ends exactly one instruction (two words) past the opcode — no double advance,
no lost or duplicated input. -/
theorem c1_input_suspend_resume (vm : Vm) (m : ParameterMode)
    (hrun : vm.state = .Running)
    (hin : vm.inputs = [])
    (hpc : 0 ≤ vm.pc)
    (hlen : vm.pc.toNat < vm.memory.length)
    (hdec : decodeOp (vm.memory.getD vm.pc.toNat 0) vm.pc = .ok (.Input m)) :
    vm.step = (.ok .WaitingForInput, { vm with state := .WaitingForInput }) ∧
    ∀ (x : Int) (xs : List Int) (a : Nat) (v2 : Vm),
      Vm.fetch_param { vm with state := .Running, inputs := xs, pc := vm.pc + 1 } m =
        (.ok a, v2) →
      Vm.step (Vm.add_inputs { vm with state := .WaitingForInput } (x :: xs)) =
        (.ok .Running, { v2 with memory := v2.memory.set a x }) ∧
      v2.pc = vm.pc + 2 ∧ v2.inputs = xs := by
  constructor
  · unfold Vm.step
    rw [hrun]
    dsimp only
    unfold Vm.stepExec
    rw [read_opcode_inrange hpc hlen, hdec]
    dsimp only
    unfold Vm.execOp
    dsimp only
    rw [hin]
    dsimp only
    rw [show vm.pc + 1 - 1 = vm.pc from by ring]
  · intro x xs a v2 hfetch
    obtain ⟨hpcv, -, hstate, hinputs, -, -⟩ := fetch_param_ok hfetch
    dsimp only at hpcv hstate hinputs
    refine ⟨?_, by omega, hinputs⟩
    unfold Vm.add_inputs Vm.step
    dsimp only
    rw [hin, List.nil_append]
    simp only [List.isEmpty_cons, Bool.false_eq_true, if_false]
    unfold Vm.stepExec
    rw [@read_opcode_inrange { vm with state := .Running, inputs := x :: xs } hpc hlen, hdec]
    dsimp only
    unfold Vm.execOp
    dsimp only
    rw [hfetch]
    dsimp only
    rw [hstate]

/-- Witness for C1 on program `[3, 0, 99]` with input `7` supplied after the
suspension. -/
theorem c1_witness :
    Vm.step (Vm.new [3, 0, 99]) =
      (.ok .WaitingForInput, { Vm.new [3, 0, 99] with state := .WaitingForInput }) ∧
    Vm.step (Vm.add_inputs { Vm.new [3, 0, 99] with state := .WaitingForInput } [7]) =
      (.ok .Running, Vm.mk [7, 0, 99] 2 0 .Running [] []) := by
  have h := c1_input_suspend_resume (Vm.new [3, 0, 99]) .Position rfl rfl (by decide)
    (by decide) (by decide)
  refine ⟨h.1, ?_⟩
  have h2 := h.2 7 [] 0 (Vm.mk [3, 0, 99] 2 0 .Running [] []) (by decide)
  rw [h2.1]
  decide


/-! ### C8: the decoder against the spec's decimal decomposition -/

/-- The mode rule exactly as the spec words it for a (nonnegative) instruction
word: the decimal digit of `w` at position `10^(k+2)`, mapped `0 → Position`,
`1 → Immediate`, `2 → Relative`. -/
def specMode (w : Nat) (k : Nat) : Option ParameterMode :=
  let d := w / 10 ^ (k + 2) % 10
  if d = 0 then some .Position
  else if d = 1 then some .Immediate
  else if d = 2 then some .Relative
  else none

/-- The decoder exactly as the spec words it: `opcode = word mod 100` selects
the instruction, and each parameter mode comes from `specMode`.  Error
payloads mirror the implementation's. -/
def specDecode (w : Nat) (addr : Int) : Except VMError Opcode :=
  let c := w % 100
  if c = 1 then
    match specMode w 0, specMode w 1, specMode w 2 with
    | some m1, some m2, some m3 => .ok (.Add m1 m2 m3)
    | _, _, _ => .error (.InvalidOpcode (w : Int) addr)
  else if c = 2 then
    match specMode w 0, specMode w 1, specMode w 2 with
    | some m1, some m2, some m3 => .ok (.Mul m1 m2 m3)
    | _, _, _ => .error (.InvalidOpcode (w : Int) addr)
  else if c = 3 then
    match specMode w 0 with
    | some m1 => .ok (.Input m1)
    | none => .error (.InvalidOpcode (w : Int) addr)
  else if c = 4 then
    match specMode w 0 with
    | some m1 => .ok (.Output m1)
    | none => .error (.InvalidOpcode (w : Int) addr)
  else if c = 5 then
    match specMode w 0, specMode w 1 with
    | some m1, some m2 => .ok (.JumpIfTrue m1 m2)
    | _, _ => .error (.InvalidOpcode (w : Int) addr)
  else if c = 6 then
    match specMode w 0, specMode w 1 with
    | some m1, some m2 => .ok (.JumpIfFalse m1 m2)
    | _, _ => .error (.InvalidOpcode (w : Int) addr)
  else if c = 7 then
    match specMode w 0, specMode w 1, specMode w 2 with
    | some m1, some m2, some m3 => .ok (.LessThan m1 m2 m3)
    | _, _, _ => .error (.InvalidOpcode (w : Int) addr)
  else if c = 8 then
    match specMode w 0, specMode w 1, specMode w 2 with
    | some m1, some m2, some m3 => .ok (.Equals m1 m2 m3)
    | _, _, _ => .error (.InvalidOpcode (w : Int) addr)
  else if c = 9 then
    match specMode w 0 with
    | some m1 => .ok (.RelativeBaseOffset m1)
    | none => .error (.InvalidOpcode (w : Int) addr)
  else if c = 99 then .ok .End
  else .error (.InvalidOpcode ((w % 100 : Nat) : Int) addr)

theorem decode_mode_natCast (w k : Nat) : decode_mode (w : Int) k = specMode w k := by
  unfold decode_mode specMode
  dsimp only
  rw [show (10 : Int) ^ (k + 2) = ((10 ^ (k + 2) : Nat) : Int) from by push_cast; ring]
  rw [show (w : Int).tdiv ((10 ^ (k + 2) : Nat) : Int) = ((w / 10 ^ (k + 2) : Nat) : Int)
    from rfl]
  rw [show ((w / 10 ^ (k + 2) : Nat) : Int).tmod 10 = ((w / 10 ^ (k + 2) % 10 : Nat) : Int)
    from rfl]
  simp only [Int.natCast_eq_zero, Nat.cast_eq_one, Nat.cast_eq_ofNat]
  norm_cast

/-- C8: on every (nonnegative) instruction word, the implementation's decoder
agrees with the spec's decimal decomposition: the opcode is `word mod 100`
and the mode of parameter `k` is the decimal digit at position `10^(k+2)`,
mapped `0 → Position`, `1 → Immediate`, `2 → Relative`. -/
theorem c8_decoder_decomposition (w : Nat) (addr : Int) :
    (∀ k, decode_mode (w : Int) k = specMode w k) ∧
    decodeOp (w : Int) addr = specDecode w addr := by
  refine ⟨fun k => decode_mode_natCast w k, ?_⟩
  unfold decodeOp specDecode
  dsimp only
  rw [show (w : Int).tmod 100 = ((w % 100 : Nat) : Int) from rfl]
  simp only [decode_mode_natCast, Nat.cast_eq_one, Nat.cast_eq_ofNat]
  norm_cast


/-! ### C9: memory growth is monotonic -/

theorem access_mono (vm : Vm) (a : Int) :
    vm.memory.length ≤ (vm.access a).2.memory.length :=
  (access_effect vm a).2.2.2.2.2.1

theorem fetch_param_mono (vm : Vm) (m : ParameterMode) :
    vm.memory.length ≤ (vm.fetch_param m).2.memory.length := by
  cases m with
  | Immediate =>
    unfold Vm.fetch_param
    exact access_mono { vm with pc := vm.pc + 1 } vm.pc
  | Position =>
    unfold Vm.fetch_param
    dsimp only
    rcases hacc : Vm.access { vm with pc := vm.pc + 1 } vm.pc with ⟨r, v⟩
    have t1 := access_mono { vm with pc := vm.pc + 1 } vm.pc
    rw [hacc] at t1
    cases r with
    | error e => exact t1
    | ok idx =>
      dsimp only
      exact le_trans t1 (access_mono v _)
  | Relative =>
    unfold Vm.fetch_param
    dsimp only
    rcases hacc : Vm.access { vm with pc := vm.pc + 1 } vm.pc with ⟨r, v⟩
    have t1 := access_mono { vm with pc := vm.pc + 1 } vm.pc
    rw [hacc] at t1
    cases r with
    | error e => exact t1
    | ok idx =>
      dsimp only
      exact le_trans t1 (access_mono v _)

theorem read_opcode_mono (vm : Vm) :
    vm.memory.length ≤ (vm.read_opcode).2.memory.length := by
  unfold Vm.read_opcode
  rcases hacc : vm.access vm.pc with ⟨r, v⟩
  have t1 := access_mono vm vm.pc
  rw [hacc] at t1
  cases r with
  | error e => exact t1
  | ok idx => exact t1

theorem execOp_mono (vm : Vm) (op : Opcode) :
    vm.memory.length ≤ (vm.execOp op).2.memory.length := by
  cases op with
  | Add m1 m2 m3 =>
    unfold Vm.execOp
    dsimp only
    rcases e1 : vm.fetch_param m1 with ⟨r1, v1⟩
    have t1 := fetch_param_mono vm m1
    rw [e1] at t1
    cases r1 with
    | error e => exact t1
    | ok a1 =>
      dsimp only
      rcases e2 : v1.fetch_param m2 with ⟨r2, v2⟩
      have t2 := fetch_param_mono v1 m2
      rw [e2] at t2
      cases r2 with
      | error e => exact le_trans t1 t2
      | ok a2 =>
        dsimp only
        rcases e3 : v2.fetch_param m3 with ⟨r3, v3⟩
        have t3 := fetch_param_mono v2 m3
        rw [e3] at t3
        cases r3 with
        | error e => exact le_trans t1 (le_trans t2 t3)
        | ok a3 =>
          dsimp only
          rw [List.length_set]
          exact le_trans t1 (le_trans t2 t3)
  | Mul m1 m2 m3 =>
    unfold Vm.execOp
    dsimp only
    rcases e1 : vm.fetch_param m1 with ⟨r1, v1⟩
    have t1 := fetch_param_mono vm m1
    rw [e1] at t1
    cases r1 with
    | error e => exact t1
    | ok a1 =>
      dsimp only
      rcases e2 : v1.fetch_param m2 with ⟨r2, v2⟩
      have t2 := fetch_param_mono v1 m2
      rw [e2] at t2
      cases r2 with
      | error e => exact le_trans t1 t2
      | ok a2 =>
        dsimp only
        rcases e3 : v2.fetch_param m3 with ⟨r3, v3⟩
        have t3 := fetch_param_mono v2 m3
        rw [e3] at t3
        cases r3 with
        | error e => exact le_trans t1 (le_trans t2 t3)
        | ok a3 =>
          dsimp only
          rw [List.length_set]
          exact le_trans t1 (le_trans t2 t3)
  | LessThan m1 m2 m3 =>
    unfold Vm.execOp
    dsimp only
    rcases e1 : vm.fetch_param m1 with ⟨r1, v1⟩
    have t1 := fetch_param_mono vm m1
    rw [e1] at t1
    cases r1 with
    | error e => exact t1
    | ok a1 =>
      dsimp only
      rcases e2 : v1.fetch_param m2 with ⟨r2, v2⟩
      have t2 := fetch_param_mono v1 m2
      rw [e2] at t2
      cases r2 with
      | error e => exact le_trans t1 t2
      | ok a2 =>
        dsimp only
        rcases e3 : v2.fetch_param m3 with ⟨r3, v3⟩
        have t3 := fetch_param_mono v2 m3
        rw [e3] at t3
        cases r3 with
        | error e => exact le_trans t1 (le_trans t2 t3)
        | ok a3 =>
          dsimp only
          rw [List.length_set]
          exact le_trans t1 (le_trans t2 t3)
  | Equals m1 m2 m3 =>
    unfold Vm.execOp
    dsimp only
    rcases e1 : vm.fetch_param m1 with ⟨r1, v1⟩
    have t1 := fetch_param_mono vm m1
    rw [e1] at t1
    cases r1 with
    | error e => exact t1
    | ok a1 =>
      dsimp only
      rcases e2 : v1.fetch_param m2 with ⟨r2, v2⟩
      have t2 := fetch_param_mono v1 m2
      rw [e2] at t2
      cases r2 with
      | error e => exact le_trans t1 t2
      | ok a2 =>
        dsimp only
        rcases e3 : v2.fetch_param m3 with ⟨r3, v3⟩
        have t3 := fetch_param_mono v2 m3
        rw [e3] at t3
        cases r3 with
        | error e => exact le_trans t1 (le_trans t2 t3)
        | ok a3 =>
          dsimp only
          rw [List.length_set]
          exact le_trans t1 (le_trans t2 t3)
  | JumpIfTrue m1 m2 =>
    unfold Vm.execOp
    dsimp only
    rcases e1 : vm.fetch_param m1 with ⟨r1, v1⟩
    have t1 := fetch_param_mono vm m1
    rw [e1] at t1
    cases r1 with
    | error e => exact t1
    | ok a1 =>
      dsimp only
      rcases e2 : v1.fetch_param m2 with ⟨r2, v2⟩
      have t2 := fetch_param_mono v1 m2
      rw [e2] at t2
      cases r2 with
      | error e => exact le_trans t1 t2
      | ok a2 =>
        dsimp only
        split
        · exact le_trans t1 t2
        · exact le_trans t1 t2
  | JumpIfFalse m1 m2 =>
    unfold Vm.execOp
    dsimp only
    rcases e1 : vm.fetch_param m1 with ⟨r1, v1⟩
    have t1 := fetch_param_mono vm m1
    rw [e1] at t1
    cases r1 with
    | error e => exact t1
    | ok a1 =>
      dsimp only
      rcases e2 : v1.fetch_param m2 with ⟨r2, v2⟩
      have t2 := fetch_param_mono v1 m2
      rw [e2] at t2
      cases r2 with
      | error e => exact le_trans t1 t2
      | ok a2 =>
        dsimp only
        split
        · exact le_trans t1 t2
        · exact le_trans t1 t2
  | Input m1 =>
    unfold Vm.execOp
    dsimp only
    rcases hi : vm.inputs with _ | ⟨i, rest⟩
    · exact le_refl _
    · dsimp only
      rcases e1 : Vm.fetch_param { vm with inputs := rest } m1 with ⟨r1, v1⟩
      have t1 := fetch_param_mono { vm with inputs := rest } m1
      rw [e1] at t1
      cases r1 with
      | error e => exact t1
      | ok a1 =>
        dsimp only
        rw [List.length_set]
        exact t1
  | Output m1 =>
    unfold Vm.execOp
    dsimp only
    rcases e1 : vm.fetch_param m1 with ⟨r1, v1⟩
    have t1 := fetch_param_mono vm m1
    rw [e1] at t1
    cases r1 with
    | error e => exact t1
    | ok a1 => exact t1
  | RelativeBaseOffset m1 =>
    unfold Vm.execOp
    dsimp only
    rcases e1 : vm.fetch_param m1 with ⟨r1, v1⟩
    have t1 := fetch_param_mono vm m1
    rw [e1] at t1
    cases r1 with
    | error e => exact t1
    | ok a1 => exact t1
  | End =>
    unfold Vm.execOp
    exact le_refl _

theorem stepExec_mono (vm : Vm) :
    vm.memory.length ≤ (vm.stepExec).2.memory.length := by
  unfold Vm.stepExec
  rcases hro : vm.read_opcode with ⟨r, v⟩
  have t1 := read_opcode_mono vm
  rw [hro] at t1
  cases r with
  | error e => exact t1
  | ok op =>
    dsimp only
    rcases hex : v.execOp op with ⟨r2, v2⟩
    have t2 := execOp_mono v op
    rw [hex] at t2
    cases r2 with
    | error e => exact le_trans t1 t2
    | ok u => exact le_trans t1 t2

theorem step_mono (vm : Vm) :
    vm.memory.length ≤ (vm.step).2.memory.length := by
  unfold Vm.step
  cases hs : vm.state with
  | Stopped => exact le_refl _
  | WaitingForInput =>
    dsimp only
    split
    · exact le_refl _
    · exact stepExec_mono { vm with state := .Running }
  | Running => exact stepExec_mono vm

theorem run_mono (vm : Vm) (n : Nat) :
    vm.memory.length ≤ (vm.run n).2.memory.length := by
  induction n generalizing vm with
  | zero => exact le_refl _
  | succ k ih =>
    unfold Vm.run
    rcases hst : vm.step with ⟨r, v⟩
    have t1 := step_mono vm
    rw [hst] at t1
    cases r with
    | error e => exact t1
    | ok s =>
      cases s with
      | Running => exact le_trans t1 (ih v)
      | Stopped => exact t1
      | WaitingForInput => exact t1


theorem getD_set_ne {l : List Int} {i j : Nat} (x : Int) (h : i ≠ j) :
    (l.set i x).getD j 0 = l.getD j 0 := by
  simp [List.getD, List.getElem?_set_ne h]

theorem read_at_effect (vm : Vm) (a : Int) :
    vm.memory.length ≤ (vm.read_at a).2.memory.length ∧
    ∀ j, j < vm.memory.length → (vm.read_at a).2.memory.getD j 0 = vm.memory.getD j 0 := by
  unfold Vm.read_at
  rcases hacc : vm.access a with ⟨r, v⟩
  have t := access_effect vm a
  rw [hacc] at t
  cases r with
  | error e => exact ⟨t.2.2.2.2.2.1, t.2.2.2.2.2.2⟩
  | ok idx => exact ⟨t.2.2.2.2.2.1, t.2.2.2.2.2.2⟩

theorem write_at_effect (vm : Vm) (a x : Int) :
    vm.memory.length ≤ (vm.write_at a x).2.memory.length ∧
    ∀ j, j < vm.memory.length → j ≠ a.toNat →
      (vm.write_at a x).2.memory.getD j 0 = vm.memory.getD j 0 := by
  unfold Vm.write_at
  rcases hacc : vm.access a with ⟨r, v⟩
  cases r with
  | error e =>
    have t := access_effect vm a
    rw [hacc] at t
    exact ⟨t.2.2.2.2.2.1, fun j hj _ => t.2.2.2.2.2.2 j hj⟩
  | ok idx =>
    obtain ⟨-, hidx, hv⟩ := access_ok hacc
    subst hidx hv
    constructor
    · dsimp only
      rw [List.length_set]
      exact length_le_extendMem _ _
    · intro j hj hne
      dsimp only
      rw [getD_set_ne x (Ne.symm hne)]
      exact extendMem_getD_lt _ hj

/-- C9: memory growth is monotonic — across `step`, `run` (any fuel),
`read_at` and `write_at` the memory length never decreases; a pure read
(`read_at`) changes no existing cell, and a `write_at` changes no existing
cell other than the one explicitly written. -/
theorem c9_memory_monotonic (vm : Vm) :
    vm.memory.length ≤ (vm.step).2.memory.length ∧
    (∀ n, vm.memory.length ≤ (vm.run n).2.memory.length) ∧
    (∀ a, vm.memory.length ≤ (vm.read_at a).2.memory.length ∧
      ∀ j, j < vm.memory.length →
        (vm.read_at a).2.memory.getD j 0 = vm.memory.getD j 0) ∧
    (∀ a x, vm.memory.length ≤ (vm.write_at a x).2.memory.length ∧
      ∀ j, j < vm.memory.length → j ≠ a.toNat →
        (vm.write_at a x).2.memory.getD j 0 = vm.memory.getD j 0) :=
  ⟨step_mono vm, fun n => run_mono vm n, fun a => read_at_effect vm a,
   fun a x => write_at_effect vm a x⟩

/-- Witness for C9 on a concrete machine: one step cannot shrink the memory of
`[1,0,0,0,99]`, and an out-of-range write at address 7 preserves the cell at
address 2. -/
theorem c9_witness :
    (Vm.new [1, 0, 0, 0, 99]).memory.length ≤ ((Vm.new [1, 0, 0, 0, 99]).step).2.memory.length ∧
    ((Vm.new [1, 0, 0, 0, 99]).write_at 7 5).2.memory.getD 2 0 =
      (Vm.new [1, 0, 0, 0, 99]).memory.getD 2 0 :=
  ⟨(c9_memory_monotonic (Vm.new [1, 0, 0, 0, 99])).1,
   ((c9_memory_monotonic (Vm.new [1, 0, 0, 0, 99])).2.2.2 7 5).2 2 (by decide) (by decide)⟩

end Intcode
